import Mathlib

/-!
Formal model of the `GptAsr` speech-recognition module
(`codes/models/gpt_voice/gpt_asr.py`).

The development shallowly embeds the parts of the module that its
behavioural claims depend on:

* the shape semantics of the `MelEncoder` convolution stack (PyTorch
  `nn.Conv1d` length arithmetic);
* the target preparation of the training forward pass (`F.pad` with a
  possibly negative constant padding amount, as implemented by PyTorch's
  `constant_pad_nd`, which crops for negative amounts and only fails when
  a resulting dimension would be non-positive);
* the cross-entropy loss slicing `logits[:, :, :-1]` vs `targets[:, 1:]`;
* the assembly of the joint mel/text sequence and the slice of the text
  segment at `self.max_mel_frames`, together with the transformer's
  configured `non_causal_sequence_partition`;
* the beam-search decoder `inference_beam` with its pluggable sampler
  (`topk_sampler` of `inference_beam_topk`, and the multinomial sampler of
  `inference_beam_sampled` abstracted over its random draw).

Real-valued network outputs (embeddings, transformer activations, softmax
probabilities) are abstracted as parameters; every piece of control flow,
indexing and shape arithmetic is embedded concretely.
-/

/-- Output length of a PyTorch `nn.Conv1d` (dilation 1) with the given
kernel size, padding and stride: `floor((L + 2*padding - kernel)/stride) + 1`.
PyTorch raises when the padded input is shorter than the kernel, which is
modelled by `none`. -/
def conv1dLen (kernel padding stride L : Nat) : Option Nat :=
  if L + 2 * padding < kernel then none
  else some ((L + 2 * padding - kernel) / stride + 1)

/-- Shape `(channels, time)` semantics of `nn.Conv1d(inC, outC, kernel,
stride, padding)`: the channel count must match and the time length follows
`conv1dLen`. -/
def conv1d (inC outC kernel padding stride : Nat) (s : Nat × Nat) : Option (Nat × Nat) :=
  if s.1 = inC then (conv1dLen kernel padding stride s.2).map (fun L => (outC, L))
  else none

/-- Shape semantics of `ResBlock(chan)`: two `Conv1d(chan, chan, kernel_size=5,
padding=2)` layers; `BatchNorm1d` and `ReLU` are shape-preserving and the
residual addition requires (and keeps) the same shape. -/
def resBlock (chan : Nat) (s : Nat × Nat) : Option (Nat × Nat) :=
  conv1d chan chan 5 2 1 s >>= conv1d chan chan 5 2 1

/-- Shape semantics of `MelEncoder(channels, mel_channels=80).encoder`:
`Conv1d(80, channels//4, 7, padding=3)`, two res blocks, a stride-2
`Conv1d(channels//4, channels//2, 5, padding=2)` (with shape-preserving
`BatchNorm1d` and `ReLU`), three res blocks, a stride-2
`Conv1d(channels//2, channels, 5, padding=2)`, three res blocks. -/
def melEncoder (channels : Nat) (s : Nat × Nat) : Option (Nat × Nat) :=
  conv1d 80 (channels / 4) 7 3 1 s >>= resBlock (channels / 4) >>= resBlock (channels / 4) >>=
  conv1d (channels / 4) (channels / 2) 5 2 2 >>= resBlock (channels / 2) >>=
  resBlock (channels / 2) >>= resBlock (channels / 2) >>=
  conv1d (channels / 2) channels 5 2 2 >>= resBlock channels >>=
  resBlock channels >>= resBlock channels

/-- Configuration of a `GptAsr` instance.  `numberSymbols` is `len(symbols)`
from the external `models.tacotron2.text` symbol table (the class attribute
`NUMBER_SYMBOLS`, which doubles as the start-token id);
`maxSymbolsPerPhrase` and `maxMelFramesArg` are the constructor arguments
`max_symbols_per_phrase` (default 200) and `max_mel_frames` (default 1000). -/
structure GptAsrCfg where
  numberSymbols : Nat
  maxSymbolsPerPhrase : Nat
  maxMelFramesArg : Nat

/-- Attribute `self.max_mel_frames = max_mel_frames // 4` set by the
constructor (mel frames are reduced by a factor of 4 during encoding). -/
def GptAsrCfg.maxMelFrames (c : GptAsrCfg) : Nat := c.maxMelFramesArg / 4

/-- Class attribute `NUMBER_TEXT_TOKENS = NUMBER_SYMBOLS + 1`. -/
def GptAsrCfg.numberTextTokens (c : GptAsrCfg) : Nat := c.numberSymbols + 1

/-- Value passed as `non_causal_sequence_partition` to the `Transformer`
in the constructor: `self.max_mel_frames`. -/
def GptAsrCfg.nonCausalSequencePartition (c : GptAsrCfg) : Nat := c.maxMelFrames

/-- Semantics of `torch.nn.functional.pad(xs, (left, right), value=value)` on
the last dimension in the default constant mode, as implemented by PyTorch's
`constant_pad_nd`: a non-negative amount inserts copies of `value`, a
negative amount removes entries from that side, and the call raises
(modelled by `none`) exactly when the resulting size would not be
positive. -/
def constantPad1d {α : Type} (value : α) (left right : Int) (xs : List α) : Option (List α) :=
  if (xs.length : Int) + left + right ≤ 0 then none
  else
    let ys := if 0 ≤ left then List.replicate left.toNat value ++ xs else xs.drop (-left).toNat
    some (if 0 ≤ right then ys ++ List.replicate right.toNat value
          else ys.take (ys.length - (-right).toNat))

/-- Target preparation of `GptAsr.forward` on one batch row:
`text_targets = F.pad(text_targets, (1, 0), value=self.NUMBER_SYMBOLS)`
followed by
`text_targets = F.pad(text_targets, (0, self.max_symbols_per_phrase - text_targets.shape[1]))`. -/
def prepTextTargets (c : GptAsrCfg) (text_targets : List Nat) : Option (List Nat) :=
  (constantPad1d c.numberSymbols 1 0 text_targets).bind fun t1 =>
    constantPad1d 0 0 ((c.maxSymbolsPerPhrase : Int) - t1.length) t1

/-- Start token followed by the targets followed by zero padding up to
`max_symbols_per_phrase`; the shape `prepTextTargets` produces whenever the
row together with the prepended start token fits. -/
def padRow (c : GptAsrCfg) (row : List Nat) : List Nat :=
  c.numberSymbols :: row ++ List.replicate (c.maxSymbolsPerPhrase - (row.length + 1)) 0

/-- Row-wise effectful map; PyTorch applies `F.pad` to the whole `(batch, L)`
tensor at once, which acts independently on every row and fails for all rows
or none (all rows of a tensor have the same length). -/
def mapRows {α β : Type} (f : α → Option β) : List α → Option (List β)
  | [] => some []
  | a :: as => (f a).bind fun b => (mapRows f as).map fun bs => b :: bs

/-- Loss computation of `GptAsr.forward` (lines 86-92).  The text logits
`text_head(final_norm(enc[:, self.max_mel_frames:]))` of one batch row are
abstracted as `textLogits appliedRow`, a list (indexed by text position) of
logit vectors; after `permute(0, 2, 1)` the slice `text_logits[:, :, :-1]`
drops the last position and `text_targets[:, 1:]` drops the first token.
`F.cross_entropy` with its default mean reduction averages the per-element
cross entropy `ce` over all batch rows and all remaining positions, with no
mask excluding padded positions; the final `.mean()` on the resulting scalar
is the identity. -/
def forwardLoss (c : GptAsrCfg) (ce : List ℚ → Nat → ℚ)
    (textLogits : List Nat → List (List ℚ)) (batchTargets : List (List Nat)) : Option ℚ :=
  (mapRows (prepTextTargets c) batchTargets).map fun padded =>
    let terms := padded.flatMap fun trow =>
      (((textLogits trow).dropLast).zip (trow.drop 1)).map fun p => ce p.1 p.2
    terms.sum / (terms.length : ℚ)

/-- Joint sequence assembly of `GptAsr.forward` (lines 76-88) over an
abstract embedding-vector type `E`: the encoded mel input is padded with
zeros up to `self.max_mel_frames` along time, positional embeddings are
added (`mapIdx` with the abstract per-position additions `melPosAdd` and
`textPosAdd`), mel and text segments are concatenated in that order, the
result runs through the transformer `gpt`, and the text logits are taken
from `enc[:, self.max_mel_frames:]`.  Returns the joint sequence and that
slice. -/
def forwardJoint {E : Type} (c : GptAsrCfg) (zero : E)
    (melPosAdd textPosAdd : Nat → E → E) (gpt : List E → List E)
    (melEmb textEmb : List E) : Option (List E × List E) :=
  (constantPad1d zero 0 ((c.maxMelFrames : Int) - melEmb.length) melEmb).map fun melPadded =>
    let mel := melPadded.mapIdx fun i e => melPosAdd i e
    let text := textEmb.mapIdx fun i e => textPosAdd i e
    let emb := mel ++ text
    (emb, (gpt emb).drop c.maxMelFrames)

/-- Joint sequence assembly inside the decoding loop of
`GptAsr.inference_beam` (lines 116-131), for one hypothesis row: the same
mel padding and concatenation as in `forwardJoint`, but the text logits are
taken from `enc[:, mel_emb.shape[1]:]`. -/
def inferenceJoint {E : Type} (c : GptAsrCfg) (zero : E)
    (melPosAdd textPosAdd : Nat → E → E) (gpt : List E → List E)
    (melEmb textSeqEmb : List E) : Option (List E × List E) :=
  (constantPad1d zero 0 ((c.maxMelFrames : Int) - melEmb.length) melEmb).map fun melPadded =>
    let mel := melPadded.mapIdx fun i e => melPosAdd i e
    let text := textSeqEmb.mapIdx fun i e => textPosAdd i e
    let emb := mel ++ text
    (emb, (gpt emb).drop mel.length)

/-- Abstract state of the random generator consumed by stochastic samplers
(`torch.multinomial`); `topk_sampler` never touches it. -/
abbrev Rng := Nat

section BeamSearchDefs

/- Torch float probabilities are abstracted by an arbitrary probability type
`R` carrying the structure beam search actually uses: a linear order (for
`torch.topk` and `torch.sort`), multiplication (cumulative products), one
(`torch.ones`) and zero (the `gather` default). -/
variable {R : Type} [LinearOrder R] [Mul R] [One R] [Zero R]

/-- Result shape shared by the two sampling strategies of `inference_beam`:
`torch.topk` results and the ad-hoc `container` class of
`inference_beam_sampled` both expose `indices` and `values`, here for one
hypothesis row. -/
structure SampleOut (R : Type) where
  indices : List Nat
  values : List R
deriving DecidableEq

/-- Per-row sampler strategy passed to `inference_beam` as `sampler_fn`,
threading the random generator. -/
abbrev Sampler (R : Type) := Rng → List R → Nat → SampleOut R × Rng

/-- Ordering used to embed `torch.topk` on one distribution row: pairs of
(token index, probability) with larger probability first. -/
def valDesc (a b : Nat × R) : Prop := b.2 ≤ a.2

instance : DecidableRel (valDesc (R := R)) :=
  fun a b => inferInstanceAs (Decidable (b.2 ≤ a.2))

instance : IsTrans (Nat × R) valDesc := ⟨fun _ _ _ h1 h2 => le_trans h2 h1⟩

instance : IsTotal (Nat × R) valDesc := ⟨fun a b => le_total b.2 a.2⟩

/-- Semantics of `torch.topk(distribution, k=k, dim=-1)` on one row: the `k`
largest entries together with their indices, values sorted in descending
order (a stable sort is one deterministic realisation of the unspecified tie
order).  PyTorch requires `k` to be at most the row length; `inference_beam`
always calls it with `k = 16` on a vocabulary-sized row. -/
def torchTopk (d : List R) (k : Nat) : SampleOut R :=
  let sorted := List.insertionSort valDesc d.enum
  ⟨(sorted.take k).map Prod.fst, (sorted.take k).map Prod.snd⟩

/-- The `topk_sampler` closure of `GptAsr.inference_beam_topk`: a pure
`torch.topk` call, independent of the random generator. -/
def topk_sampler : Sampler R := fun rng d k => (torchTopk d k, rng)

/-- The `multinomial_sampler` closure of `GptAsr.inference_beam_sampled`,
abstracted over the random draw of `torch.multinomial(distribution,
num_samples=k, replacement=False)`; the values are gathered from the
distribution at the drawn indices, mirroring the `container` class. -/
def multinomial_sampler (draw : Rng → List R → Nat → List Nat × Rng) : Sampler R :=
  fun rng d k =>
    let dr := draw rng d k
    (⟨dr.1, dr.1.map fun i => d.getD i 0⟩, dr.2)

/-- Decoding state of the `while` loop of `inference_beam`: the hypothesis
rows `text_seq`, their cumulative `probabilities`, and the random-generator
state. -/
structure BeamState (R : Type) where
  text_seq : List (List Nat)
  probabilities : List R
  rng : Rng
deriving DecidableEq

/-- The `beam_width = 16` constant of `inference_beam`. -/
def beamWidth : Nat := 16

/-- Application of `sampler_fn` to every row of the batched distribution
`F.softmax(temperature * text_logits[:, -1], dim=-1)`, threading the random
generator row by row. -/
def sampleRows (sampler : Sampler R) : Rng → List (List R) → Nat → List (SampleOut R) × Rng
  | rng, [], _ => ([], rng)
  | rng, d :: ds, k =>
    let o := sampler rng d k
    let os := sampleRows sampler o.2 ds k
    (o.1 :: os.1, os.2)

/-- Ordering used to embed `torch.sort(probabilities, descending=True)`
acting simultaneously on the probabilities and (through `sort_indices`) the
hypothesis rows: pairs of (cumulative probability, row) with larger
probability first. -/
def probDesc (a b : R × List Nat) : Prop := b.1 ≤ a.1

instance : DecidableRel (probDesc (R := R)) :=
  fun a b => inferInstanceAs (Decidable (b.1 ≤ a.1))

instance : IsTrans (R × List Nat) probDesc := ⟨fun _ _ _ h1 h2 => le_trans h2 h1⟩

instance : IsTotal (R × List Nat) probDesc := ⟨fun a b => le_total b.1 a.1⟩

/-- One iteration of the decoding loop of `inference_beam` (lines 124-141).
`nextDist row` abstracts the next-token distribution
`F.softmax(temperature * text_logits[:, -1], dim=-1)` the network produces
for hypothesis `row` on the fixed mel input.  The iteration samples
`beam_width` candidates per row, forms cumulative probabilities
`probabilities.repeat_interleave(beam_width) * topk.values.flatten()`,
extends every row with each of its candidate codes in the same row-major
order, sorts probabilities and rows together in descending order of
probability (`torch.sort` plus `sort_indices` gathering, realised as a
stable sort of the pairs) and keeps the first `beam_width` of both. -/
def beamStep (nextDist : List Nat → List R) (sampler : Sampler R) (st : BeamState R) :
    BeamState R :=
  let so := sampleRows sampler st.rng (st.text_seq.map nextDist) beamWidth
  let expandedProbs := (st.probabilities.zip so.1).flatMap fun pv =>
    pv.2.values.map fun v => pv.1 * v
  let expandedRows := (st.text_seq.zip so.1).flatMap fun ro =>
    ro.2.indices.map fun code => ro.1 ++ [code]
  let kept := (List.insertionSort probDesc (expandedProbs.zip expandedRows)).take beamWidth
  ⟨kept.map Prod.snd, kept.map Prod.fst, so.2⟩

/-- Number of columns `text_seq.shape[-1]` of the hypothesis tensor; every
row of a tensor has the same length, so the head length represents it. -/
def seqLen (rows : List (List Nat)) : Nat := (rows.headD []).length

/-- The early-stop test `torch.all(torch.any(text_seq == 0, dim=1))`:
every hypothesis row contains the pad token 0. -/
def allRowsContainPad (rows : List (List Nat)) : Bool :=
  rows.all fun r => r.any fun t => t == 0

/-- The `while text_seq.shape[-1] < self.max_symbols_per_phrase` loop of
`inference_beam`, with the `break` once every row contains a pad token.
The loop is embedded with explicit fuel; since every iteration extends each
surviving row by exactly one token starting from length 1, fuel
`max_symbols_per_phrase` is enough for the guard to stop the recursion
first whenever the sampler yields `beam_width` candidates per row, as
`torch.topk` and `torch.multinomial` do. -/
def beamLoop (maxSymbols : Nat) (nextDist : List Nat → List R) (sampler : Sampler R) :
    Nat → BeamState R → BeamState R
  | 0, st => st
  | fuel + 1, st =>
    if seqLen st.text_seq < maxSymbols then
      let st1 := beamStep nextDist sampler st
      if allRowsContainPad st1.text_seq then st1
      else beamLoop maxSymbols nextDist sampler fuel st1
    else st

/-- Observable outcome of `GptAsr.inference_beam`: the returned hypothesis
tensor, the cumulative probabilities accompanying it when the loop ends,
and whether the non-fatal warning
`"Warning! Encountered frame limit before a pad token."` was printed
(`text_seq.shape[1] >= self.max_mel_frames`). -/
structure BeamResult (R : Type) where
  text_seq : List (List Nat)
  probabilities : List R
  warned : Bool
deriving DecidableEq

/-- `GptAsr.inference_beam` (lines 110-150).  The assertion `assert b == 1`
on the mel batch dimension aborts the call for any other batch size
(modelled as `Except.error`).  Decoding starts from the single row
`torch.full((b, 1), NUMBER_SYMBOLS)` with probability `torch.ones((b,))`,
runs the decoding loop, and finally reports the warning condition. -/
def inference_beam (c : GptAsrCfg) (melBatch : Nat) (nextDist : List Nat → List R)
    (sampler : Sampler R) (rng : Rng) : Except String (BeamResult R) :=
  if melBatch = 1 then
    let st0 : BeamState R := ⟨[[c.numberSymbols]], [1], rng⟩
    let st := beamLoop c.maxSymbolsPerPhrase nextDist sampler c.maxSymbolsPerPhrase st0
    Except.ok ⟨st.text_seq, st.probabilities, decide (c.maxMelFrames ≤ seqLen st.text_seq)⟩
  else Except.error "Beam search only works on batches of one."

/-- `GptAsr.inference_beam_topk`: beam search with the deterministic
`topk_sampler`. -/
def inference_beam_topk (c : GptAsrCfg) (melBatch : Nat)
    (nextDist : List Nat → List R) (rng : Rng) : Except String (BeamResult R) :=
  inference_beam c melBatch nextDist topk_sampler rng

/-- `GptAsr.inference_beam_sampled`: beam search with the stochastic
`multinomial_sampler` built over the abstract draw. -/
def inference_beam_sampled (c : GptAsrCfg) (melBatch : Nat)
    (nextDist : List Nat → List R) (draw : Rng → List R → Nat → List Nat × Rng)
    (rng : Rng) : Except String (BeamResult R) :=
  inference_beam c melBatch nextDist (multinomial_sampler draw) rng

end BeamSearchDefs

/-- Decidable equality of `Except` results, used to evaluate concrete runs. -/
instance {e a : Type} [DecidableEq e] [DecidableEq a] : DecidableEq (Except e a) :=
  fun x y =>
    match x, y with
    | .ok u, .ok v =>
      if h : u = v then isTrue (by rw [h]) else isFalse (by intro hc; cases hc; exact h rfl)
    | .error u, .error v =>
      if h : u = v then isTrue (by rw [h]) else isFalse (by intro hc; cases hc; exact h rfl)
    | .ok _, .error _ => isFalse (by intro hc; cases hc)
    | .error _, .ok _ => isFalse (by intro hc; cases hc)

theorem conv1dLen_k7 (L : Nat) (h : 1 ≤ L) : conv1dLen 7 3 1 L = some L := by
  simp only [conv1dLen, Nat.div_one]
  rw [if_neg (by omega)]
  congr 1
  omega

theorem conv1dLen_k5 (L : Nat) (h : 1 ≤ L) : conv1dLen 5 2 1 L = some L := by
  simp only [conv1dLen, Nat.div_one]
  rw [if_neg (by omega)]
  congr 1
  omega

theorem conv1dLen_s2 (L : Nat) (h : 1 ≤ L) : conv1dLen 5 2 2 L = some ((L + 1) / 2) := by
  simp only [conv1dLen]
  rw [if_neg (by omega)]
  congr 1
  omega

theorem resBlock_id (ch L : Nat) (h : 1 ≤ L) : resBlock ch (ch, L) = some (ch, L) := by
  simp [resBlock, conv1d, conv1dLen_k5 L h]

/-- C2 (amended).  The Mel Encoder maps an input of shape `(80, T)` to an
output of shape `(model_dim, ceil(T/4))`: the time dimension is the rounded
up quarter `(T + 3) / 4` of the input time length, which differs from
`floor(T/4)` whenever `T` is not a multiple of 4.  The two stride-2
convolutions each round up (`ceil(L/2) = (L+1)/2`), not down. -/
theorem melEncoder_output_shape (channels T : Nat) (h : 1 ≤ T) :
    melEncoder channels (80, T) = some (channels, (T + 3) / 4) := by
  have h2 : 1 ≤ (T + 1) / 2 := by omega
  have h4 : 1 ≤ ((T + 1) / 2 + 1) / 2 := by omega
  have e4 : ((T + 1) / 2 + 1) / 2 = (T + 3) / 4 := by omega
  rw [← e4]
  simp [melEncoder, conv1d, conv1dLen_k7 T h, conv1dLen_s2 T h, resBlock_id _ _ h,
        conv1dLen_s2 _ h2, resBlock_id _ _ h2, resBlock_id _ _ h4]

/-- Witness for C2 at `model_dim = 512`, `T = 6`: the output time length is
`(6 + 3) / 4 = 2`. -/
theorem melEncoder_output_shape_witness :
    1 ≤ 6 ∧ melEncoder 512 (80, 6) = some (512, (6 + 3) / 4) :=
  ⟨by decide, melEncoder_output_shape 512 6 (by decide)⟩

/-- Counterexample for C2 as stated: at `T = 5` the encoder output time
length is `2 = ceil(5/4)`, not `floor(5/4) = 1`. -/
theorem melEncoder_time_dim_not_floor :
    melEncoder 512 (80, 5) ≠ some (512, 5 / 4) := by decide

theorem constantPad1d_left_one {α : Type} (v : α) (xs : List α) :
    constantPad1d v 1 0 xs = some (v :: xs) := by
  unfold constantPad1d
  rw [if_neg (by omega)]
  norm_num

theorem constantPad1d_nonneg {α : Type} (v : α) (r : Int) (xs : List α)
    (hr : 0 ≤ r) (hp : 0 < (xs.length : Int) + r) :
    constantPad1d v 0 r xs = some (xs ++ List.replicate r.toNat v) := by
  unfold constantPad1d
  rw [if_neg (by omega)]
  norm_num [hr]

theorem constantPad1d_neg {α : Type} (v : α) (r : Int) (xs : List α)
    (hr : r < 0) (hp : 0 < (xs.length : Int) + r) :
    constantPad1d v 0 r xs = some (xs.take (xs.length - (-r).toNat)) := by
  unfold constantPad1d
  rw [if_neg (by omega)]
  norm_num [not_le.mpr hr]

theorem prep_fit (c : GptAsrCfg) (ts : List Nat)
    (h : ts.length + 1 ≤ c.maxSymbolsPerPhrase) :
    prepTextTargets c ts = some (padRow c ts) := by
  simp only [prepTextTargets, constantPad1d_left_one, Option.some_bind]
  rw [constantPad1d_nonneg _ _ _ (by simp only [List.length_cons]; omega)
      (by simp only [List.length_cons]; omega)]
  have ht : ((c.maxSymbolsPerPhrase : Int) - ((c.numberSymbols :: ts).length : Nat)).toNat
      = c.maxSymbolsPerPhrase - (ts.length + 1) := by
    simp only [List.length_cons]
    omega
  rw [ht]
  simp [padRow]

/-- C8 (amended).  For every text-target row whose length together with the
prepended start token fits into `max_symbols_per_phrase` (that is,
`L + 1 ≤ max_symbols_per_phrase`), the padded sequence fed to the embedding
is the start token `NUMBER_SYMBOLS` followed by the `L` target tokens
followed by zeros, of total length exactly `max_symbols_per_phrase`.  At
`L = max_symbols_per_phrase` exactly (allowed by the original claim) the
second `F.pad` instead crops the last target token. -/
theorem prep_start_token_zero_pad (c : GptAsrCfg) (ts : List Nat)
    (h : ts.length + 1 ≤ c.maxSymbolsPerPhrase) :
    prepTextTargets c ts =
      some (c.numberSymbols :: ts ++
        List.replicate (c.maxSymbolsPerPhrase - (ts.length + 1)) 0) ∧
    (c.numberSymbols :: ts ++
        List.replicate (c.maxSymbolsPerPhrase - (ts.length + 1)) 0).length
      = c.maxSymbolsPerPhrase := by
  refine ⟨prep_fit c ts h, ?_⟩
  simp
  omega

/-- Witness for C8 with `max_symbols_per_phrase = 5` and the two-token row
`[3, 4]`. -/
theorem prep_start_token_zero_pad_witness :
    2 + 1 ≤ 5 ∧
    (prepTextTargets ⟨148, 5, 1000⟩ [3, 4] =
      some (148 :: [3, 4] ++ List.replicate (5 - (2 + 1)) 0) ∧
    ((148 : Nat) :: [3, 4] ++ List.replicate (5 - (2 + 1)) 0).length = 5) :=
  ⟨by decide, prep_start_token_zero_pad ⟨148, 5, 1000⟩ [3, 4] (by decide)⟩

/-- Counterexample for C8 as stated: with `max_symbols_per_phrase = 2` and a
row of length `L = 2 ≤ max_symbols_per_phrase`, the prepared sequence is
`[148, 5]` (the second target token is cropped by the negative padding), not
the start token followed by both target tokens and zeros. -/
theorem prep_full_length_drops_last :
    prepTextTargets ⟨148, 2, 1000⟩ [5, 7] ≠
      some (148 :: [5, 7] ++ List.replicate (2 - (2 + 1)) 0) := by decide

/-- C4 (amended).  A text-target row that does not fit (its length plus the
prepended start token exceeds `max_symbols_per_phrase`) does NOT make the
padding fail: `F.pad` with a negative amount crops, so the row is silently
truncated to the start token followed by the first
`max_symbols_per_phrase - 1` target tokens.  The resulting size equals
`max_symbols_per_phrase`, which is positive, so the negative-size check of
`constant_pad_nd` never fires here. -/
theorem prep_overflow_truncates (c : GptAsrCfg) (ts : List Nat)
    (h1 : 1 ≤ c.maxSymbolsPerPhrase) (h2 : c.maxSymbolsPerPhrase < ts.length + 1) :
    prepTextTargets c ts = some ((c.numberSymbols :: ts).take c.maxSymbolsPerPhrase) := by
  simp only [prepTextTargets, constantPad1d_left_one, Option.some_bind]
  rw [constantPad1d_neg _ _ _ (by simp only [List.length_cons]; omega)
      (by simp only [List.length_cons]; omega)]
  have ht : ((-((c.maxSymbolsPerPhrase : Int) - ((c.numberSymbols :: ts).length : Nat)))).toNat
      = ts.length + 1 - c.maxSymbolsPerPhrase := by
    simp only [List.length_cons]
    omega
  have ht2 : (c.numberSymbols :: ts).length - (ts.length + 1 - c.maxSymbolsPerPhrase)
      = c.maxSymbolsPerPhrase := by
    simp only [List.length_cons]
    omega
  rw [ht, ht2]

/-- Witness for C4 with `max_symbols_per_phrase = 3` and a four-token row. -/
theorem prep_overflow_truncates_witness :
    1 ≤ 3 ∧ 3 < 4 + 1 ∧
    prepTextTargets ⟨148, 3, 1000⟩ [5, 6, 7, 8] =
      some (((148 : Nat) :: [5, 6, 7, 8]).take 3) :=
  ⟨by decide, by decide, prep_overflow_truncates ⟨148, 3, 1000⟩ [5, 6, 7, 8] (by decide) (by decide)⟩

/-- Counterexample for C4 as stated: a row of length 4 with
`max_symbols_per_phrase = 3` is processed without any error, yielding the
silently truncated sequence `[148, 5, 6]`. -/
theorem prep_overflow_no_error :
    prepTextTargets ⟨148, 3, 1000⟩ [5, 6, 7, 8] = some [148, 5, 6] := by decide

theorem mapRows_eq_map {α β : Type} (f : α → Option β) (g : α → β) (l : List α)
    (h : ∀ a ∈ l, f a = some (g a)) : mapRows f l = some (l.map g) := by
  induction l with
  | nil => rfl
  | cons a as ih =>
    simp only [mapRows, h a (by simp), Option.some_bind,
      ih fun b hb => h b (by simp [hb]), Option.map_some', List.map_cons]

theorem loss_terms_shift (ce : List ℚ → Nat → ℚ) (lrow : List (List ℚ)) (trow : List Nat)
    (P : Nat) (hl : lrow.length = P) (ht : trow.length = P) :
    (lrow.dropLast.zip (trow.drop 1)).map (fun p => ce p.1 p.2)
      = (List.range (P - 1)).map fun i => ce (lrow.getD i []) (trow.getD (i + 1) 0) := by
  apply List.ext_getElem
  · simp [hl, ht]
  · intro i h1 h2
    have hi : i < P - 1 := by simpa [hl, ht] using h1
    simp only [List.getElem_map, List.getElem_zip, List.getElem_dropLast, List.getElem_drop,
      List.getElem_range]
    rw [List.getD_eq_getElem _ _ (by omega), List.getD_eq_getElem _ _ (by omega)]
    have e12 : 1 + i = i + 1 := Nat.add_comm 1 i
    simp only [e12]

theorem length_flatMap_const {α β : Type} (l : List α) (f : α → List β) (n : Nat)
    (h : ∀ a ∈ l, (f a).length = n) : (l.flatMap f).length = l.length * n := by
  induction l with
  | nil => simp
  | cons a as ih =>
    simp only [List.flatMap_cons, List.length_append, h a (by simp),
      ih fun b hb => h b (by simp [hb]), List.length_cons]
    ring

theorem padRow_length (c : GptAsrCfg) (row : List Nat)
    (h : row.length + 1 ≤ c.maxSymbolsPerPhrase) :
    (padRow c row).length = c.maxSymbolsPerPhrase := by
  simp [padRow]
  omega

/-- C3.  The training loss is the mean cross entropy between the text logits
at all positions except the last and the padded targets shifted left by one:
with `P = max_symbols_per_phrase`, the averaged terms are exactly
`ce (logits row i) (paddedRow (i+1))` for `i` ranging over `[0, P-2]` and
every batch row, so padded (zero-filled) positions contribute (no mask
excludes them), and the denominator is the full count
`batch * (P - 1)`; the result is one scalar. -/
theorem forward_loss_shifted_unmasked (c : GptAsrCfg) (ce : List ℚ → Nat → ℚ)
    (tl : List Nat → List (List ℚ)) (bt : List (List Nat))
    (hshape : ∀ t, (tl t).length = c.maxSymbolsPerPhrase)
    (hlen : ∀ row ∈ bt, row.length + 1 ≤ c.maxSymbolsPerPhrase) :
    forwardLoss c ce tl bt =
      some (((bt.map fun row => (List.range (c.maxSymbolsPerPhrase - 1)).map fun i =>
          ce ((tl (padRow c row)).getD i []) ((padRow c row).getD (i + 1) 0)).flatten.sum) /
        ((bt.length * (c.maxSymbolsPerPhrase - 1) : Nat) : ℚ)) := by
  rw [forwardLoss, mapRows_eq_map _ (padRow c) bt fun a ha => prep_fit c a (hlen a ha)]
  simp only [Option.map_some', Option.some.injEq]
  have hterms : ((bt.map (padRow c)).flatMap fun trow =>
      ((tl trow).dropLast.zip (trow.drop 1)).map fun p => ce p.1 p.2)
      = (bt.map fun row => (List.range (c.maxSymbolsPerPhrase - 1)).map fun i =>
          ce ((tl (padRow c row)).getD i []) ((padRow c row).getD (i + 1) 0)).flatten := by
    rw [List.flatMap_def, List.map_map]
    congr 1
    apply List.map_congr_left
    intro row hrow
    exact loss_terms_shift ce (tl (padRow c row)) (padRow c row) c.maxSymbolsPerPhrase
      (hshape _) (padRow_length c row (hlen row hrow))
  have hcount : ((bt.map (padRow c)).flatMap fun trow =>
      ((tl trow).dropLast.zip (trow.drop 1)).map fun p => ce p.1 p.2).length
      = bt.length * (c.maxSymbolsPerPhrase - 1) := by
    rw [length_flatMap_const _ _ (c.maxSymbolsPerPhrase - 1) (fun a ha => by
      obtain ⟨row, hrow, rfl⟩ := List.mem_map.mp ha
      simp [hshape, padRow_length c row (hlen row hrow)])]
    simp
  rw [hcount, hterms]

/-- Witness for C3: one batch row `[5]` with `max_symbols_per_phrase = 3`,
a concrete per-element cross entropy and constant logits. -/
theorem forward_loss_shifted_unmasked_witness :
    forwardLoss ⟨9, 3, 1000⟩ (fun l t => l.getD t 0)
      (fun _ => [[1, 2], [3, 4], [5, 6]]) [[5]] =
      some ((([[5]].map fun row => (List.range (3 - 1)).map fun i =>
          (fun l t => l.getD t ((0 : ℚ)))
            (((fun _ : List Nat => [[(1 : ℚ), 2], [3, 4], [5, 6]]) (padRow ⟨9, 3, 1000⟩ row)).getD i [])
            ((padRow ⟨9, 3, 1000⟩ row).getD (i + 1) 0)).flatten.sum) /
        ((([[5]] : List (List Nat)).length * (3 - 1) : Nat) : ℚ)) :=
  forward_loss_shifted_unmasked ⟨9, 3, 1000⟩ (fun l t => l.getD t 0)
    (fun _ => [[1, 2], [3, 4], [5, 6]]) [[5]] (fun _ => rfl) (by decide)

theorem constantPad1d_zero_left_length {α : Type} (v : α) (r : Int) (xs ys : List α)
    (h : constantPad1d v 0 r xs = some ys) : (ys.length : Int) = (xs.length : Int) + r := by
  rcases le_or_lt 0 r with hr | hr
  · rcases Nat.eq_zero_or_pos (xs.length + r.toNat) with hz | hz
    · rw [constantPad1d] at h
      rw [if_pos (by omega)] at h
      exact absurd h (by simp)
    · rw [constantPad1d_nonneg v r xs hr (by omega)] at h
      cases h
      simp
      omega
  · have hp : 0 < (xs.length : Int) + r := by
      by_contra hc
      rw [constantPad1d, if_pos (by omega)] at h
      exact absurd h (by simp)
    rw [constantPad1d_neg v r xs hr hp] at h
    cases h
    simp
    omega

/-- C9.  In both `forward` and the decoding loop of `inference_beam`, the
joint sequence is the mel segment followed by the text segment, the mel
segment occupies exactly the first `max_mel_frames // 4` positions, that
length equals the `non_causal_sequence_partition` index the transformer was
constructed with, and the text logits are sliced from exactly the positions
after this partition index. -/
theorem joint_sequence_mel_then_text (E : Type) (c : GptAsrCfg) (zero : E)
    (mp tp : Nat → E → E) (gpt : List E → List E)
    (melEmbF textEmbF melEmbI textEmbI embF lgF embI lgI : List E)
    (hf : forwardJoint c zero mp tp gpt melEmbF textEmbF = some (embF, lgF))
    (hi : inferenceJoint c zero mp tp gpt melEmbI textEmbI = some (embI, lgI)) :
    c.nonCausalSequencePartition = c.maxMelFramesArg / 4 ∧
    embF.drop c.nonCausalSequencePartition = textEmbF.mapIdx (fun i e => tp i e) ∧
    embF.length = c.nonCausalSequencePartition + textEmbF.length ∧
    lgF = (gpt embF).drop c.nonCausalSequencePartition ∧
    embI.drop c.nonCausalSequencePartition = textEmbI.mapIdx (fun i e => tp i e) ∧
    embI.length = c.nonCausalSequencePartition + textEmbI.length ∧
    lgI = (gpt embI).drop c.nonCausalSequencePartition := by
  rw [forwardJoint] at hf
  rw [inferenceJoint] at hi
  rcases hpf : constantPad1d zero 0 ((c.maxMelFrames : Int) - melEmbF.length) melEmbF with _ | mjF
  · rw [hpf] at hf
    exact absurd hf (by simp)
  rcases hpi : constantPad1d zero 0 ((c.maxMelFrames : Int) - melEmbI.length) melEmbI with _ | mjI
  · rw [hpi] at hi
    exact absurd hi (by simp)
  rw [hpf] at hf
  rw [hpi] at hi
  simp only [Option.map_some', Option.some.injEq, Prod.mk.injEq] at hf hi
  have hlf : (mjF.mapIdx fun i e => mp i e).length = c.nonCausalSequencePartition := by
    have := constantPad1d_zero_left_length zero _ melEmbF mjF hpf
    simp only [List.length_mapIdx, GptAsrCfg.nonCausalSequencePartition]
    omega
  have hli : (mjI.mapIdx fun i e => mp i e).length = c.nonCausalSequencePartition := by
    have := constantPad1d_zero_left_length zero _ melEmbI mjI hpi
    simp only [List.length_mapIdx, GptAsrCfg.nonCausalSequencePartition]
    omega
  obtain ⟨hembF, hlgF⟩ := hf
  obtain ⟨hembI, hlgI⟩ := hi
  refine ⟨rfl, ?_, ?_, ?_, ?_, ?_, ?_⟩
  · rw [← hembF, List.drop_left' hlf]
  · rw [← hembF]
    simp [hlf.symm]
  · rw [← hlgF, ← hembF, GptAsrCfg.nonCausalSequencePartition]
  · rw [← hembI, List.drop_left' hli]
  · rw [← hembI]
    simp [hli.symm]
  · rw [← hlgI, ← hembI, hli]

/-- Witness for C9: `max_mel_frames = 8` (partition `8 / 4 = 2`), a forward
call whose mel embedding is padded from length 1 up to 2, and an inference
step whose mel embedding is cropped from length 3 down to 2, with
`List.reverse` as the abstract transformer. -/
theorem joint_sequence_mel_then_text_witness :
    (⟨148, 3, 8⟩ : GptAsrCfg).nonCausalSequencePartition = 8 / 4 ∧
    List.drop 2 [5, 1, 70, 91] = ([70, 91] : List Nat) ∧
    ([5, 1, 70, 91] : List Nat).length = 2 + 2 ∧
    ([1, 5] : List Nat) = List.drop 2 (List.reverse [5, 1, 70, 91]) ∧
    List.drop 2 [4, 5, 20] = ([20] : List Nat) ∧
    ([4, 5, 20] : List Nat).length = 2 + 1 ∧
    ([4] : List Nat) = List.drop 2 (List.reverse [4, 5, 20]) :=
  joint_sequence_mel_then_text Nat ⟨148, 3, 8⟩ 0 (fun i e => e + i) (fun i e => e * 10 + i)
    List.reverse [5] [7, 9] [4, 4, 4] [2] [5, 1, 70, 91] [1, 5] [4, 5, 20] [4]
    (by decide) (by decide)

section BeamTheorems

variable {R : Type} [LinearOrder R] [Mul R] [One R] [Zero R]

/-- C5.  Beam-search inference requires a mel batch of exactly one: with any
other batch size the `assert b == 1` aborts the call immediately with no
decoding performed, and with batch size one the assertion never fires and a
result is returned. -/
theorem inference_beam_batch_one (c : GptAsrCfg) (b : Nat) (nd : List Nat → List R)
    (s : Sampler R) (rng : Rng) :
    (b = 1 → ∃ r, inference_beam c b nd s rng = Except.ok r) ∧
    (b ≠ 1 → inference_beam c b nd s rng
        = Except.error "Beam search only works on batches of one.") := by
  constructor
  · rintro rfl
    exact ⟨_, by rw [inference_beam, if_pos rfl]⟩
  · intro hb
    rw [inference_beam, if_neg hb]

/-- Witness for C5 at batch size 2 (the failing case of the scenario in the
specification). -/
theorem inference_beam_batch_one_witness :
    ((2 : Nat) = 1 → ∃ r, inference_beam ⟨148, 200, 1000⟩ 2 (fun _ => ([] : List Nat))
        topk_sampler 0 = Except.ok r) ∧
    ((2 : Nat) ≠ 1 → inference_beam ⟨148, 200, 1000⟩ 2 (fun _ => ([] : List Nat)) topk_sampler 0
        = Except.error "Beam search only works on batches of one.") :=
  inference_beam_batch_one ⟨148, 200, 1000⟩ 2 (fun _ => ([] : List Nat)) topk_sampler 0

theorem sampleRows_topk (rng : Rng) (ds : List (List R)) (k : Nat) :
    sampleRows topk_sampler rng ds k = (ds.map fun d => torchTopk d k, rng) := by
  induction ds generalizing rng with
  | nil => rfl
  | cons d ds ih => simp [sampleRows, topk_sampler, ih]

theorem beamStep_topk_rng (nd : List Nat → List R) (st : BeamState R) (r : Rng) :
    beamStep nd topk_sampler { st with rng := r }
      = { beamStep nd topk_sampler st with rng := r } := by
  simp [beamStep, sampleRows_topk]

theorem beamLoop_topk_rng (P : Nat) (nd : List Nat → List R) (fuel : Nat) :
    ∀ (st : BeamState R) (r : Rng),
    beamLoop P nd topk_sampler fuel { st with rng := r }
      = { beamLoop P nd topk_sampler fuel st with rng := r } := by
  induction fuel with
  | zero => intro st r; rfl
  | succ fuel ih =>
    intro st r
    rw [beamLoop, beamLoop]
    dsimp only
    by_cases hg : seqLen st.text_seq < P
    · rw [if_pos hg, if_pos hg, beamStep_topk_rng]
      dsimp only
      by_cases hb : allRowsContainPad (beamStep nd topk_sampler st).text_seq
      · rw [if_pos hb, if_pos hb]
      · rw [if_neg hb, if_neg hb, ih]
    · rw [if_neg hg, if_neg hg]

/-- C7.  `inference_beam_topk` is deterministic: on the same mel input (and
hence the same induced next-token distributions) and the same model weights,
two runs differing only in the state of the random generator return the same
result, because `topk_sampler` neither consumes nor depends on it. -/
theorem inference_beam_topk_deterministic (c : GptAsrCfg) (melBatch : Nat)
    (nd : List Nat → List R) (rng1 rng2 : Rng) :
    inference_beam_topk c melBatch nd rng1 = inference_beam_topk c melBatch nd rng2 := by
  unfold inference_beam_topk inference_beam
  by_cases hb : melBatch = 1
  · rw [if_pos hb, if_pos hb]
    have h2 := beamLoop_topk_rng c.maxSymbolsPerPhrase nd c.maxSymbolsPerPhrase
      ⟨[[c.numberSymbols]], [1], rng2⟩ rng1
    dsimp only at h2
    dsimp only
    rw [h2]
  · rw [if_neg hb, if_neg hb]

theorem beamStep_rows_le (nd : List Nat → List R) (s : Sampler R) (st : BeamState R) :
    (beamStep nd s st).text_seq.length ≤ beamWidth := by
  rw [beamStep]
  dsimp only
  rw [List.length_map, List.length_take]
  exact Nat.min_le_left _ _

theorem beamStep_probs_sorted (nd : List Nat → List R) (s : Sampler R) (st : BeamState R) :
    (beamStep nd s st).probabilities.Pairwise (fun a b : R => b ≤ a) := by
  rw [beamStep]
  dsimp only
  rw [List.pairwise_map]
  exact List.Pairwise.sublist (List.take_sublist _ _) (List.sorted_insertionSort probDesc _)

theorem beamStep_row_mem (nd : List Nat → List R) (s : Sampler R) (st : BeamState R)
    (row : List Nat) (h : row ∈ (beamStep nd s st).text_seq) :
    ∃ parent ∈ st.text_seq, ∃ code : Nat, row = parent ++ [code] := by
  rw [beamStep] at h
  dsimp only at h
  obtain ⟨pr, hpr, rfl⟩ := List.mem_map.mp h
  have hpr2 := List.mem_of_mem_take hpr
  rw [List.mem_insertionSort] at hpr2
  obtain ⟨ro, hro, hmem⟩ := List.mem_flatMap.mp (List.of_mem_zip hpr2).2
  obtain ⟨code, _, heq⟩ := List.mem_map.mp hmem
  exact ⟨ro.1, (List.of_mem_zip hro).1, code, heq.symm⟩

theorem beamStep_row_length (nd : List Nat → List R) (s : Sampler R) (st : BeamState R)
    (L : Nat) (hu : ∀ row ∈ st.text_seq, row.length = L)
    (row : List Nat) (h : row ∈ (beamStep nd s st).text_seq) : row.length = L + 1 := by
  obtain ⟨parent, hp, code, rfl⟩ := beamStep_row_mem nd s st row h
  simp [hu parent hp]

theorem beamStep_uniform (nd : List Nat → List R) (s : Sampler R) (st : BeamState R)
    (L : Nat) (hu : ∀ row ∈ st.text_seq, row.length = L) :
    ∀ row ∈ (beamStep nd s st).text_seq,
      row.length = seqLen (beamStep nd s st).text_seq := by
  intro row hr
  rcases hrows : (beamStep nd s st).text_seq with _ | ⟨r0, rest⟩
  · rw [hrows] at hr
    simp at hr
  · have h0 : r0.length = L + 1 :=
      beamStep_row_length nd s st L hu r0 (by rw [hrows]; exact List.mem_cons_self _ _)
    have hrl : row.length = L + 1 := beamStep_row_length nd s st L hu row hr
    simp [seqLen, hrows, h0, hrl]

theorem beamStep_seqLen_le (nd : List Nat → List R) (s : Sampler R) (st : BeamState R)
    (L : Nat) (hu : ∀ row ∈ st.text_seq, row.length = L) :
    seqLen (beamStep nd s st).text_seq ≤ L + 1 := by
  rcases hrows : (beamStep nd s st).text_seq with _ | ⟨r0, rest⟩
  · simp [seqLen]
  · have h0 : r0.length = L + 1 :=
      beamStep_row_length nd s st L hu r0 (by rw [hrows]; exact List.mem_cons_self _ _)
    simp [seqLen, h0]

theorem beamLoop_shape (P : Nat) (nd : List Nat → List R) (s : Sampler R) (fuel : Nat) :
    ∀ st : BeamState R,
    st.text_seq.length ≤ beamWidth →
    st.probabilities.Pairwise (fun a b : R => b ≤ a) →
    (∀ row ∈ st.text_seq, row.length = seqLen st.text_seq) →
    seqLen st.text_seq ≤ P →
    (beamLoop P nd s fuel st).text_seq.length ≤ beamWidth ∧
    (beamLoop P nd s fuel st).probabilities.Pairwise (fun a b : R => b ≤ a) ∧
    (∀ row ∈ (beamLoop P nd s fuel st).text_seq,
        row.length = seqLen (beamLoop P nd s fuel st).text_seq) ∧
    seqLen (beamLoop P nd s fuel st).text_seq ≤ P := by
  induction fuel with
  | zero => exact fun st h1 h2 h3 h4 => ⟨h1, h2, h3, h4⟩
  | succ fuel ih =>
    intro st h1 h2 h3 h4
    rw [beamLoop]
    by_cases hg : seqLen st.text_seq < P
    · rw [if_pos hg]
      dsimp only
      have hu1 := beamStep_uniform nd s st _ h3
      have hl1 : seqLen (beamStep nd s st).text_seq ≤ P :=
        le_trans (beamStep_seqLen_le nd s st _ h3) (by omega)
      by_cases hb : allRowsContainPad (beamStep nd s st).text_seq
      · rw [if_pos hb]
        exact ⟨beamStep_rows_le nd s st, beamStep_probs_sorted nd s st, hu1, hl1⟩
      · rw [if_neg hb]
        exact ih _ (beamStep_rows_le nd s st) (beamStep_probs_sorted nd s st) hu1 hl1
    · rw [if_neg hg]
      exact ⟨h1, h2, h3, h4⟩

/-- C6.  Whenever beam search returns (batch size 1, with at least one
symbol allowed), the returned tensor has at most `beam_width = 16` rows, the
cumulative probabilities accompanying the rows (each built step by step as
parent probability times sampled value) are in descending order, and every
row is at most `max_symbols_per_phrase` tokens long.  This holds for any
sampler strategy, hence for both `inference_beam_topk` and
`inference_beam_sampled`. -/
theorem inference_beam_sorted_bounded (c : GptAsrCfg) (nd : List Nat → List R)
    (s : Sampler R) (rng : Rng) (r : BeamResult R)
    (hP : 1 ≤ c.maxSymbolsPerPhrase)
    (h : inference_beam c 1 nd s rng = Except.ok r) :
    r.text_seq.length ≤ beamWidth ∧
    r.probabilities.Pairwise (fun a b : R => b ≤ a) ∧
    ∀ row ∈ r.text_seq, row.length ≤ c.maxSymbolsPerPhrase := by
  rw [inference_beam, if_pos rfl] at h
  dsimp only at h
  injection h with h2
  subst h2
  dsimp only
  have hst := beamLoop_shape c.maxSymbolsPerPhrase nd s c.maxSymbolsPerPhrase
    ⟨[[c.numberSymbols]], [1], rng⟩
    (by show 1 ≤ beamWidth; norm_num [beamWidth])
    (List.pairwise_singleton _ _)
    (by intro row hrow
        have : row = [c.numberSymbols] := by simpa using hrow
        simp [this, seqLen])
    (by show 1 ≤ c.maxSymbolsPerPhrase; exact hP)
  refine ⟨hst.1, hst.2.1, fun row hrow => ?_⟩
  rw [hst.2.2.1 row hrow]
  exact hst.2.2.2

/-- Witness for C6: a one-candidate sampler run with
`max_symbols_per_phrase = 2` returning a single sorted row. -/
theorem inference_beam_sorted_bounded_witness :
    ([[148, 2]] : List (List Nat)).length ≤ beamWidth ∧
    ([5] : List Nat).Pairwise (fun a b : Nat => b ≤ a) ∧
    ∀ row ∈ ([[148, 2]] : List (List Nat)), row.length ≤ 2 :=
  inference_beam_sorted_bounded ⟨148, 2, 20⟩ (fun _ => ([] : List Nat))
    (fun rg _ _ => (⟨[2], [5]⟩, rg)) 0 ⟨[[148, 2]], [5], false⟩
    (by decide) (by decide)

theorem sampleRows_length (s : Sampler R) (rng : Rng) (ds : List (List R)) (k : Nat) :
    (sampleRows s rng ds k).1.length = ds.length := by
  induction ds generalizing rng with
  | nil => rfl
  | cons d ds ih => simp [sampleRows, ih]

theorem sampleRows_mem (s : Sampler R) (rng : Rng) (ds : List (List R)) (k : Nat)
    (o : SampleOut R) (h : o ∈ (sampleRows s rng ds k).1) : ∃ rg d, o = (s rg d k).1 := by
  induction ds generalizing rng with
  | nil => simp [sampleRows] at h
  | cons d ds ih =>
    simp only [sampleRows] at h
    rcases List.mem_cons.mp h with h | h
    · exact ⟨rng, d, h⟩
    · exact ih _ h

theorem beamStep_text_length (nd : List Nat → List R) (s : Sampler R) (st : BeamState R)
    (hs : ∀ rg d k, (s rg d k).1.indices.length = k ∧ (s rg d k).1.values.length = k) :
    (beamStep nd s st).text_seq.length
      = min beamWidth
          (min (min st.probabilities.length st.text_seq.length * beamWidth)
               (st.text_seq.length * beamWidth)) := by
  rw [beamStep]
  dsimp only
  rw [List.length_map, List.length_take, List.length_insertionSort, List.length_zip]
  have hc1 : ∀ pv ∈ st.probabilities.zip (sampleRows s st.rng (st.text_seq.map nd) beamWidth).1,
      (pv.2.values.map fun v => pv.1 * v).length = beamWidth := by
    intro pv hpv
    obtain ⟨rg, d, he⟩ := sampleRows_mem s st.rng _ beamWidth pv.2 (List.of_mem_zip hpv).2
    rw [List.length_map, he]
    exact (hs rg d beamWidth).2
  have hc2 : ∀ ro ∈ st.text_seq.zip (sampleRows s st.rng (st.text_seq.map nd) beamWidth).1,
      (ro.2.indices.map fun code => ro.1 ++ [code]).length = beamWidth := by
    intro ro hro
    obtain ⟨rg, d, he⟩ := sampleRows_mem s st.rng _ beamWidth ro.2 (List.of_mem_zip hro).2
    rw [List.length_map, he]
    exact (hs rg d beamWidth).1
  rw [length_flatMap_const _ _ beamWidth hc1, length_flatMap_const _ _ beamWidth hc2,
    List.length_zip, List.length_zip, sampleRows_length, List.length_map, min_self]

theorem beamStep_probs_length (nd : List Nat → List R) (s : Sampler R) (st : BeamState R) :
    (beamStep nd s st).probabilities.length = (beamStep nd s st).text_seq.length := by
  rw [beamStep]
  dsimp only
  rw [List.length_map, List.length_map]

theorem beamLoop_start_token (P : Nat) (nd : List Nat → List R) (s : Sampler R)
    (hs : ∀ rg d k, (s rg d k).1.indices.length = k ∧ (s rg d k).1.values.length = k)
    (tok : Nat) (fuel : Nat) :
    ∀ st : BeamState R,
    st.text_seq ≠ [] → st.probabilities ≠ [] →
    (∀ row ∈ st.text_seq, row.headD 0 = tok ∧ 2 ≤ row.length) →
    (beamLoop P nd s fuel st).text_seq ≠ [] ∧
    (beamLoop P nd s fuel st).probabilities ≠ [] ∧
    (∀ row ∈ (beamLoop P nd s fuel st).text_seq, row.headD 0 = tok ∧ 2 ≤ row.length) := by
  induction fuel with
  | zero => exact fun st h1 h2 h3 => ⟨h1, h2, h3⟩
  | succ fuel ih =>
    intro st h1 h2 h3
    rw [beamLoop]
    by_cases hg : seqLen st.text_seq < P
    · rw [if_pos hg]
      dsimp only
      have hlr : 1 ≤ st.text_seq.length := List.length_pos.mpr h1
      have hlp : 1 ≤ st.probabilities.length := List.length_pos.mpr h2
      have hne1 : (beamStep nd s st).text_seq ≠ [] := by
        rw [← List.length_pos, beamStep_text_length nd s st hs]
        simp only [beamWidth]
        omega
      have hne2 : (beamStep nd s st).probabilities ≠ [] := by
        rw [← List.length_pos, beamStep_probs_length, beamStep_text_length nd s st hs]
        simp only [beamWidth]
        omega
      have hrows1 : ∀ row ∈ (beamStep nd s st).text_seq,
          row.headD 0 = tok ∧ 2 ≤ row.length := by
        intro row hr
        obtain ⟨parent, hp, code, rfl⟩ := beamStep_row_mem nd s st row hr
        obtain ⟨hph, hpl⟩ := h3 parent hp
        rcases parent with _ | ⟨a, as⟩
        · simp at hpl
        · refine ⟨by simpa using hph, ?_⟩
          simp only [List.length_append, List.length_cons, List.length_nil]
          omega
      by_cases hb : allRowsContainPad (beamStep nd s st).text_seq
      · rw [if_pos hb]
        exact ⟨hne1, hne2, hrows1⟩
      · rw [if_neg hb]
        exact ih _ hne1 hne2 hrows1
    · rw [if_neg hg]
      exact ⟨h1, h2, h3⟩

/-- C10.  Whenever beam search returns (batch size 1, at least two symbols
allowed so the loop runs at least once, and a sampler that, like
`torch.topk` and `torch.multinomial`, yields exactly `k` candidates), the
returned tensor is non-empty, every row starts with the start token
`NUMBER_SYMBOLS` at position 0, and every row has length at least 2: the
start token plus at least one generated token, one per loop iteration. -/
theorem inference_beam_rows_start_token (c : GptAsrCfg) (nd : List Nat → List R)
    (s : Sampler R) (rng : Rng) (r : BeamResult R)
    (hP : 2 ≤ c.maxSymbolsPerPhrase)
    (hs : ∀ rg d k, (s rg d k).1.indices.length = k ∧ (s rg d k).1.values.length = k)
    (h : inference_beam c 1 nd s rng = Except.ok r) :
    r.text_seq ≠ [] ∧
    ∀ row ∈ r.text_seq, row.headD 0 = c.numberSymbols ∧ 2 ≤ row.length := by
  rw [inference_beam, if_pos rfl] at h
  dsimp only at h
  injection h with h2
  subst h2
  dsimp only
  obtain ⟨f, hf⟩ : ∃ f, c.maxSymbolsPerPhrase = f + 2 := ⟨c.maxSymbolsPerPhrase - 2, by omega⟩
  rw [hf, beamLoop]
  have hg : seqLen (⟨[[c.numberSymbols]], [1], rng⟩ : BeamState R).text_seq < f + 2 := by
    show 1 < f + 2
    omega
  rw [if_pos hg]
  dsimp only
  have hne1 : (beamStep nd s ⟨[[c.numberSymbols]], [1], rng⟩).text_seq ≠ [] := by
    rw [← List.length_pos, beamStep_text_length nd s _ hs]
    simp only [beamWidth, List.length_cons, List.length_nil]
    omega
  have hne2 : (beamStep nd s ⟨[[c.numberSymbols]], [1], rng⟩).probabilities ≠ [] := by
    rw [← List.length_pos, beamStep_probs_length, beamStep_text_length nd s _ hs]
    simp only [beamWidth, List.length_cons, List.length_nil]
    omega
  have hrows1 : ∀ row ∈ (beamStep nd s ⟨[[c.numberSymbols]], [1], rng⟩).text_seq,
      row.headD 0 = c.numberSymbols ∧ 2 ≤ row.length := by
    intro row hr
    obtain ⟨parent, hp, code, rfl⟩ := beamStep_row_mem nd s _ row hr
    have hpe : parent = [c.numberSymbols] := by simpa using hp
    subst hpe
    exact ⟨rfl, by simp⟩
  by_cases hb : allRowsContainPad (beamStep nd s ⟨[[c.numberSymbols]], [1], rng⟩).text_seq
  · rw [if_pos hb]
    exact ⟨hne1, hrows1⟩
  · rw [if_neg hb]
    obtain ⟨hr1, _, hr3⟩ := beamLoop_start_token (f + 2) nd s hs c.numberSymbols (f + 1)
      (beamStep nd s ⟨[[c.numberSymbols]], [1], rng⟩) hne1 hne2 hrows1
    exact ⟨hr1, hr3⟩

end BeamTheorems

/-- Witness for C10: a multinomial-style sampler drawing the first 16 token
ids, with `max_symbols_per_phrase = 2`; all 16 returned rows start with the
start token 148 and have length 2. -/
theorem inference_beam_rows_start_token_witness :
    ((List.range 16).map fun i => [148, i]) ≠ ([] : List (List Nat)) ∧
    ∀ row ∈ (List.range 16).map fun i => [148, i],
      row.headD 0 = 148 ∧ 2 ≤ row.length :=
  inference_beam_rows_start_token ⟨148, 2, 20⟩ (fun _ => ([] : List Nat))
    (multinomial_sampler fun rng _ k => (List.range k, rng)) 0
    ⟨(List.range 16).map fun i => [148, i], List.replicate 16 0, false⟩
    (by decide)
    (fun rg d k => ⟨by simp [multinomial_sampler], by simp [multinomial_sampler]⟩)
    (by decide)

/-- C1 (code bug).  A decode that reaches the symbol limit without ever
producing a pad token does not print the warning: with
`max_symbols_per_phrase = 2` and `max_mel_frames = 20` and a distribution
whose top 16 tokens exclude the pad token 0, the returned rows contain no
pad token and the run stopped at the length limit, yet `warned = false`,
because line 147 compares the text length against
`self.max_mel_frames = max_mel_frames // 4 = 5` instead of the symbol limit
that bounds the loop (the same shape as the defaults `200 < 1000 // 4`,
under which the warning can never fire), and never checks for pad tokens at
all. -/
theorem beam_warning_not_emitted :
    (inference_beam_topk ⟨148, 2, 20⟩ 1 (fun _ => 0 :: List.replicate 16 1) 0).map
      (fun r => (r.warned, r.text_seq.all fun row => row.all fun t => !(t == 0)))
      = Except.ok (false, true) := by decide
